import Mathlib

/-!
Verification of the Moodle-to-LOM conversion and record-linking engine of
`invenio-moodle` against its natural-language specification.

The definitions below are shallow embeddings of the Python source files
`convert.py`, `schemas.py`, `types.py`, `files.py`, `links.py` and `utils.py`.
Pure functions become Lean functions, stateful code becomes explicit state
passing, fallible code returns `Except`, and external collaborators
(persistent-identifier store, record service, unit-of-work) become explicit
oracle parameters.  The file is laid out with all definitions first,
followed by all theorems.
-/

namespace InvenioMoodle

/-! # Definitions -/

/-! ## Classification conversion (`convert.py`, `MoodleFileToLOMFile.visit_classification`)

The source sorts the collected OEFOS identifiers with
`oefos_ids.sort(key=lambda id_: id_.ljust(6, chr(255)))`, i.e. a stable sort
by the key obtained from right-padding the id to width 6 with the character
of code point 255, compared lexicographically by code point.  Each sorted id
is then appended twice: `record.append_oefos_id(id_)` and
`record.append_oefos_id(id_, "en")`.
-/

/-- Embedding of Python `str.ljust(width, fillchar)`: right-pad to `width`
with `fill`; a string of length at least `width` is returned unchanged. -/
def ljust (s : String) (width : Nat) (fill : Char) : String :=
  s ++ String.mk (List.replicate (width - s.length) fill)

/-- Code points of a string, the domain on which Python compares strings. -/
def codePoints (s : String) : List Nat :=
  s.data.map Char.toNat

/-- Lexicographic less-or-equal on code-point lists, embedding Python's
string comparison `<=`. -/
def lexLe : List Nat → List Nat → Bool
  | [], _ => true
  | _ :: _, [] => false
  | a :: as, b :: bs =>
    if a < b then true
    else if b < a then false
    else lexLe as bs

/-- The sort key of `visit_classification`: right-pad the id to width 6 with
the character of code point 255 (`chr(255)` in the source). -/
def oefosSortKey (id : String) : List Nat :=
  codePoints (ljust id 6 (Char.ofNat 255))

/-- Comparison used by the sort in `visit_classification`. -/
def oefosLe (a b : String) : Prop :=
  lexLe (oefosSortKey a) (oefosSortKey b) = true

instance : DecidableRel oefosLe := fun a b => by
  unfold oefosLe; infer_instance

/-- Embedding of `oefos_ids.sort(key=lambda id_: id_.ljust(6, chr(255)))`:
Python's `list.sort` is a stable ascending sort by key, which for the total
preorder `oefosLe` coincides with stable insertion sort. -/
def sortOefosIds (ids : List String) : List String :=
  List.insertionSort oefosLe ids

/-- One appended OEFOS entry: the id together with its optional language tag
(`none` for `record.append_oefos_id(id_)`, `some "en"` for
`record.append_oefos_id(id_, "en")`). -/
structure OefosEntry where
  id : String
  lang : Option String
deriving DecidableEq, Repr

/-- Embedding of the append loop of `visit_classification`: the list of
entries appended onto the target document, in order. -/
def visit_classification (ids : List String) : List OefosEntry :=
  (sortOefosIds ids).flatMap (fun i => [⟨i, none⟩, ⟨i, some "en"⟩])

/-! ## Resource-type conversion (`convert.py`, `MoodleFileToLOMFile.visit_resourcetype`)

The source indexes a fixed dict
`{"No selection": None, "Presentationslide": "slide", "Exercise": "assessment"}`
directly with the incoming value, so a value absent from the table raises a
`KeyError`.  A value mapped to `None` (and, by Python truthiness, one mapped
to the empty string) appends nothing.
-/

/-- The fixed lookup table `learningresourcetype_by_resourcetype`. -/
def learningresourcetype_by_resourcetype : List (String × Option String) :=
  [("No selection", none), ("Presentationslide", some "slide"),
   ("Exercise", some "assessment")]

/-- Python truthiness of `None`-or-string values, as tested by
`if learningresourcetype := ...:`. -/
def pyTruthy : Option String → Bool
  | none => false
  | some s => s ≠ ""

/-- Embedding of `visit_resourcetype`: look the value up in the fixed table
(raising `KeyError` on a missing key, as Python dict indexing does) and
append the mapped learning-resource-type when it is truthy.  The record is
modeled by its list of appended learning-resource-types. -/
def visit_resourcetype (value : String) (record : List String) :
    Except String (List String) :=
  match learningresourcetype_by_resourcetype.lookup value with
  | none => .error ("KeyError: " ++ value)
  | some lrt => .ok (if pyTruthy lrt then record ++ [lrt.getD ""] else record)

/-! ## UnitKey identity (`types.py`, class `UnitKey`)

The `singledispatchmethod` constructor of `types.UnitKey` stores the
attributes "courseid", "year" and "semester" via `object.__setattr__`, but
`get_moodle_pid_value` reads `self.course_id`, `self.year`,
`self.semester`.  Python attribute access is by name, so the object is
embedded as a finite map from attribute names to string values, and a read
of an absent attribute is an `AttributeError`, embedded as `none`.
-/

/-- A Python object's string attributes, keyed by attribute name. -/
abbrev PyAttrs : Type := List (String × String)

/-- Embedding of the primary `types.UnitKey.__init__`: it stores exactly the
attributes "courseid", "year" and "semester". -/
def unitKeyInit (courseid year semester : String) : PyAttrs :=
  [("courseid", courseid), ("year", year), ("semester", semester)]

/-- Python attribute read: `none` models an `AttributeError`. -/
def getattrOpt (attrs : PyAttrs) (name : String) : Option String :=
  List.lookup name attrs

/-- Embedding of `types.UnitKey.get_moodle_pid_value`, which evaluates the
f-string over `self.course_id`, `self.year` and `self.semester`. -/
def get_moodle_pid_value (attrs : PyAttrs) : Option String := do
  let c ← getattrOpt attrs "course_id"
  let y ← getattrOpt attrs "year"
  let s ← getattrOpt attrs "semester"
  pure (c ++ "-" ++ y ++ "-" ++ s)

/-- The value the spec (and the repository's own test `test_unitkey`)
requires `get_moodle_pid_value` to produce; this definition follows the
spec's words and is compared against the embedded code. -/
def unitKeyPidValueSpec (course_id year semester : String) : String :=
  course_id ++ "-" ++ year ++ "-" ++ semester

/-! ## Shared data model of the `utils.py` pipeline

`utils.py` carries its own complete pipeline (`prepare_tasks`,
`insert_files_into_db`, `get_links`, `insert_moodle_into_db`) over frozen
dataclass keys and a run-scoped `dict[Key, TaskLog]`.  Course jsons are
embedded with the fields the pipeline reads (`courseid`, `sourceid`) plus an
opaque remainder, file jsons with `fileurl`, `year`, `semester` and
`courses`.  The dict is embedded as an association list with
insertion-order-preserving update, matching Python dict semantics.
-/

/-- A Moodle course json: the fields read by the pipeline plus the remaining
key-value payload (carried so that whole-json equality is meaningful). -/
structure CourseJson where
  courseid : String
  sourceid : String
  rest : List (String × String)
deriving DecidableEq, Repr

/-- A Moodle file json as consumed by the `utils.py` pipeline. -/
structure MoodleElement where
  fileurl : String
  year : String
  semester : String
  courses : List CourseJson
deriving DecidableEq, Repr

/-- The `Key` dataclasses of `utils.py`: `FileKey(url, year, semester,
hash_md5)`, `UnitKey(courseid, year, semester)`, `CourseKey(courseid)`. -/
inductive Key where
  | file (url year semester hash_md5 : String)
  | unit (courseid year semester : String)
  | course (courseid : String)
deriving DecidableEq, Repr

/-- Embedding of `Key.to_string_key` of `utils.py`. -/
def Key.to_string_key : Key → String
  | .file url year semester hash_md5 =>
      "FileKey(url=" ++ url ++ ", year=" ++ year ++ ", semester=" ++ semester
        ++ ", hash_md5=" ++ hash_md5 ++ ")"
  | .unit courseid year semester =>
      "UnitKey(courseid=" ++ courseid ++ ", year=" ++ year ++ ", semester="
        ++ semester ++ ")"
  | .course courseid => "CourseKey(courseid=" ++ courseid ++ ")"

/-- The `TaskLog` dataclass of `utils.py`.  `relations` embeds the list of
relation entries (value, kind) appended onto `task_log.json` by the linking
loop of `insert_moodle_into_db`. -/
structure TaskLog where
  pid : String
  moodle_file_json : Option MoodleElement := none
  moodle_course_json : Option CourseJson := none
  relations : List (String × String) := []
deriving DecidableEq, Repr

/-- The run-scoped `task_logs : dict[Key, TaskLog]`, embedded as an
association list in insertion order. -/
abbrev Logs : Type := List (Key × TaskLog)

/-- Dict lookup `task_logs[key]`; `none` models a `KeyError`. -/
def lookupLog (logs : Logs) (k : Key) : Option TaskLog :=
  List.lookup k logs

/-- Dict membership `key in task_logs`. -/
def containsKey (logs : Logs) (k : Key) : Bool :=
  (lookupLog logs k).isSome

/-- Dict assignment `task_logs[key] = v`: updates in place when the key
exists, appends otherwise (Python dicts preserve insertion order). -/
def dictInsert (logs : Logs) (k : Key) (v : TaskLog) : Logs :=
  if containsKey logs k then
    logs.map (fun kv => if kv.1 = k then (k, v) else kv)
  else logs ++ [(k, v)]

/-! ## Record preparation (`utils.py`, `prepare_tasks`)

`fetch_else_create` consults the external persistent-identifier store and
record service; it is embedded as an oracle `fetch : Key → String` assigning
each key the pid of its looked-up-or-created record.  `prepare_tasks` walks
every file json, registers its `FileKey` task, and for every course json
with `courseid != "0"` registers the `UnitKey` and `CourseKey` tasks not yet
present.
-/

/-- The unit-key registration of `prepare_tasks`:
`if unit_key not in task_logs: task_logs[unit_key] = fetch_else_create(...)`. -/
def insertUnitKey (fetch : Key → String) (f : MoodleElement) (logs : Logs)
    (c : CourseJson) : Logs :=
  if containsKey logs (.unit c.courseid f.year f.semester) then logs
  else dictInsert logs (.unit c.courseid f.year f.semester)
    { pid := fetch (.unit c.courseid f.year f.semester),
      moodle_file_json := some f, moodle_course_json := some c }

/-- The course-key registration of `prepare_tasks`:
`if course_key not in task_logs: task_logs[course_key] = fetch_else_create(...)`. -/
def insertCourseKey (fetch : Key → String) (f : MoodleElement) (logs : Logs)
    (c : CourseJson) : Logs :=
  if containsKey logs (.course c.courseid) then logs
  else dictInsert logs (.course c.courseid)
    { pid := fetch (.course c.courseid),
      moodle_file_json := some f, moodle_course_json := some c }

/-- One iteration of the inner course loop of `prepare_tasks`: course
entries with courseid "0" are skipped before any key construction. -/
def prepare_course_step (fetch : Key → String) (f : MoodleElement)
    (logs : Logs) (c : CourseJson) : Logs :=
  if c.courseid = "0" then logs
  else insertCourseKey fetch f (insertUnitKey fetch f logs c) c

/-- Embedding of `prepare_tasks`: `cache` is the file-cache oracle mapping a
file url to its md5 hash (`FileKey.from_json_and_cache`). -/
def prepare_tasks (fetch : Key → String) (cache : String → String)
    (files : List MoodleElement) : Logs :=
  files.foldl
    (fun logs f =>
      let fileKey : Key := .file f.fileurl f.year f.semester (cache f.fileurl)
      let logs1 := dictInsert logs fileKey
        { pid := fetch fileKey, moodle_file_json := some f }
      f.courses.foldl (prepare_course_step fetch f) logs1)
    []

/-- A key naming the Moodle-internal pseudo-course: a `UnitKey` or
`CourseKey` whose courseid is "0". -/
def isPseudoKey : Key → Bool
  | .unit courseid _ _ => courseid = "0"
  | .course courseid => courseid = "0"
  | .file _ _ _ _ => false

/-- All keys registered in the task table avoid the pseudo-course. -/
def allKeysGood (logs : Logs) : Prop :=
  ∀ k ∈ logs.map Prod.fst, isPseudoKey k = false

/-! ## Link inference (`utils.py`, `get_links`; `links.py`, `add_file_key_links`,
`add_unit_key_links`, `add_course_key_links`)

Links are collected in a Python `set`; the embedding uses a duplicate-free
list built by `setAdd`.  The external persistent-identifier store and the
read-only record fetch for predecessor courses are merged into one oracle
`pidstore : String → Option TaskLog`: `none` embeds a
`PIDDoesNotExistError`, `some tl` means the store has an entry whose record
reads back as the task log `tl`.
-/

/-- The `Link` dataclass: a directed semantic edge `(source key, kind,
target pid)`. -/
structure Link where
  key : Key
  kind : String
  value : String
deriving DecidableEq, Repr

/-- Embedding of `links.add(link)` on a Python `set`: a no-op when the
element is already present. -/
def setAdd (links : List Link) (l : Link) : List Link :=
  if l ∈ links then links else links ++ [l]

/-- The inner course loop of the file branch of `get_links`
(`add_file_key_links` in `links.py`): course entries with courseid "0" are
skipped; for the others the unit task is looked up (a missing unit task is
a `KeyError`) and the `ispartof`/`haspart` pair is added. -/
def file_courses_links (logs : Logs) (key : Key) (log : TaskLog)
    (f : MoodleElement) : List CourseJson → List Link → Except String (List Link)
  | [], links => .ok links
  | c :: cs, links =>
    if c.courseid = "0" then file_courses_links logs key log f cs links
    else
      match lookupLog logs (.unit c.courseid f.year f.semester) with
      | none => .error "KeyError"
      | some unitLog =>
        file_courses_links logs key log f cs
          (setAdd (setAdd links ⟨key, "ispartof", unitLog.pid⟩)
            ⟨Key.unit c.courseid f.year f.semester, "haspart", log.pid⟩)

/-- The file branch of `get_links`: iterate the courses of the task's
`moodle_file_json` (an absent file json is a `TypeError` in the source). -/
def add_file_key_links (logs : Logs) (key : Key) (log : TaskLog)
    (links : List Link) : Except String (List Link) :=
  match log.moodle_file_json with
  | none => .error "TypeError"
  | some f => file_courses_links logs key log f f.courses links

/-- The unit branch of `get_links` (`add_unit_key_links` in `links.py`):
link the unit with its course via `ispartof`/`haspart`. -/
def add_unit_key_links (logs : Logs) (key : Key) (courseid : String)
    (log : TaskLog) (links : List Link) : Except String (List Link) :=
  match lookupLog logs (.course courseid) with
  | none => .error "KeyError"
  | some courseLog =>
    .ok (setAdd (setAdd links ⟨key, "ispartof", courseLog.pid⟩)
      ⟨Key.course courseid, "haspart", log.pid⟩)

/-- The course branch of `get_links` (`add_course_key_links` in
`links.py`): a course whose `sourceid` is "-1" has no predecessor; a
`sourceid` with no persistent-identifier entry is silently skipped
(the `PIDDoesNotExistError` is caught and the branch returns); otherwise a
task log for the predecessor is materialized if absent and the
`iscontinuedby`/`continues` pair is added. -/
def add_course_key_links (pidstore : String → Option TaskLog)
    (links : List Link) (logs : Logs) (key : Key) (log : TaskLog) :
    Except String (List Link × Logs) :=
  match log.moodle_course_json with
  | none => .error "TypeError"
  | some cj =>
    if cj.sourceid = "-1" then .ok (links, logs)
    else
      match pidstore (Key.course cj.sourceid).to_string_key with
      | none => .ok (links, logs)
      | some sourceLog =>
        match lookupLog
            (if containsKey logs (Key.course cj.sourceid) then logs
             else dictInsert logs (Key.course cj.sourceid) sourceLog)
            (Key.course cj.sourceid) with
        | none => .error "KeyError"
        | some sl =>
          .ok (setAdd (setAdd links
              ⟨Key.course cj.sourceid, "iscontinuedby", log.pid⟩)
            ⟨key, "continues", sl.pid⟩,
            if containsKey logs (Key.course cj.sourceid) then logs
            else dictInsert logs (Key.course cj.sourceid) sourceLog)

/-- The dispatch loop of `get_links`, iterating over the entries of
`task_logs` (the iteration runs over the snapshot of entries taken at loop
entry, while lookups and predecessor insertions see the threaded dict). -/
def get_links_aux (pidstore : String → Option TaskLog) :
    List (Key × TaskLog) → List Link → Logs → Except String (List Link × Logs)
  | [], links, logs => .ok (links, logs)
  | (key, log) :: rest, links, logs =>
    match key with
    | .file _ _ _ _ =>
      match add_file_key_links logs key log links with
      | .error e => .error e
      | .ok links1 => get_links_aux pidstore rest links1 logs
    | .unit courseid _ _ =>
      match add_unit_key_links logs key courseid log links with
      | .error e => .error e
      | .ok links1 => get_links_aux pidstore rest links1 logs
    | .course _ =>
      match add_course_key_links pidstore links logs key log with
      | .error e => .error e
      | .ok (links1, logs1) => get_links_aux pidstore rest links1 logs1

/-- Embedding of `get_links`: infer the link set from the task logs. -/
def get_links (pidstore : String → Option TaskLog) (logs : Logs) :
    Except String (List Link × Logs) :=
  get_links_aux pidstore logs [] logs

/-- The relation-append loop of `insert_moodle_into_db`
(`for link in get_links(task_logs): ... metadata.append_relation(link.value,
kind=link.kind)`): append one relation entry onto the source record of each
inferred link. -/
def append_relation (logs : Logs) (l : Link) : Logs :=
  logs.map (fun kv =>
    if kv.1 = l.key then
      (kv.1, { kv.2 with relations := kv.2.relations ++ [(l.value, l.kind)] })
    else kv)

/-- Applying the whole relation-append loop. -/
def apply_links (links : List Link) (logs : Logs) : Logs :=
  links.foldl append_relation logs

/-- The relation entries the loop appends onto the record of key `k`, in
order: one `(value, kind)` pair per link whose source is `k`. -/
def addedRelations (links : List Link) (k : Key) : List (String × String) :=
  links.filterMap (fun l => if l.key = k then some (l.value, l.kind) else none)

/-! ## File insertion (`files.py` / `utils.py`, `insert_files_into_db`)

The draft-files service is embedded as an attachment store mapping each pid
to its list of attached file keys; `list_draft_files`/`list_files` read the
list, and the `edit`/`init_files`/`set_file_content`/`commit_file` sequence
appends the new filename.  The file cache's resolved filename for a url is
the oracle `cacheName` (`file_cache[url].path.name`).
-/

/-- The attachment store: pid to attached file keys. -/
abbrev Attachments : Type := List (String × List String)

/-- Files currently attached to the record `pid`. -/
def filesOf (att : Attachments) (pid : String) : List String :=
  (List.lookup pid att).getD []

/-- Attach one file to the record `pid` (the
`edit`/`init_files`/`set_file_content`/`commit_file` sequence). -/
def attachFile : Attachments → String → String → Attachments
  | [], pid, fname => [(pid, [fname])]
  | kv :: rest, pid, fname =>
    if kv.1 = pid then (kv.1, kv.2 ++ [fname]) :: rest
    else kv :: attachFile rest pid fname

/-- Embedding of `insert_files_into_db`: for every `FileKey` task, read the
pre-existing files; more than one is a fatal consistency error
(`ValueError`), exactly one is silently skipped, zero leads to attaching the
cached file exactly once.  Non-file tasks are untouched. -/
def insert_files_into_db (cacheName : String → String) :
    List (Key × TaskLog) → Attachments → Except String Attachments
  | [], att => .ok att
  | (key, task) :: rest, att =>
    match key with
    | .file url _ _ _ =>
      let former := filesOf att task.pid
      if former.length > 1 then
        .error "encountered LOM-record of resource_type file with more than 1 file attached"
      else if former.length = 1 then
        insert_files_into_db cacheName rest att
      else
        insert_files_into_db cacheName rest (attachFile att task.pid (cacheName url))
    | _ => insert_files_into_db cacheName rest att

/-! ## Publish phase (`utils.py`, `insert_moodle_into_db`, final loop)

All publishes of one run go through a single `UnitOfWork`, with one
`uow.commit()` after the loop.  Per the external collaborator contract
(spec section 6) a unit of work applies its registered operations on
`commit()` and implicitly rolls all of them back when an exception escapes
the `with` block.  `draftExists` embeds `read_draft` (a missing draft is a
caught `NoResultFound` and the record is skipped); `publishOk` embeds
whether `service.publish` succeeds for a pid.
-/

/-- The publish loop inside the unit of work: returns the pids whose
publish was registered, or the pid whose publish raised. -/
def publish_batch (draftExists publishOk : String → Bool) :
    List String → Except String (List String)
  | [] => .ok []
  | pid :: rest =>
    if draftExists pid then
      if publishOk pid then
        match publish_batch draftExists publishOk rest with
        | .error e => .error e
        | .ok regs => .ok (pid :: regs)
      else .error pid
    else publish_batch draftExists publishOk rest

/-- The published state after the `with UnitOfWork() as uow:` block: on
success the commit applies every registered publish, on failure the unit of
work rolls all of them back, leaving the pre-run state. -/
def publish_phase (draftExists publishOk : String → Bool)
    (pids : List String) (published : List String) : List String :=
  match publish_batch draftExists publishOk pids with
  | .ok regs => published ++ regs
  | .error _ => published

/-! ## Schema validation (`schemas.py`)

`MoodleSchema.validate_urls_unique` counts the canonical URL of every
extracted file/element (`fileurl` when present, else `source`) and raises a
`ValidationError` listing every URL occurring more than once.
`extract_moodle_records` is imported from `utils.py` by `schemas.py`,
`api.py` and `services.py` but is absent from the source tree, so it is
modelled from the spec below.
-/

/-- A file/element entry as seen by the whole-document validators. -/
structure SchemaElement where
  fileurl : Option String
  source : Option String
deriving DecidableEq, Repr

/-- A raw ingestion document in one of the two profile shapes of spec
section 6. -/
inductive MoodleData where
  | profile1 (moodlecourses : List (String × List SchemaElement))
  | profile2 (moodlecourses : List (List SchemaElement))
deriving DecidableEq, Repr

/-- Modelled from the spec: `extract_moodle_records` is called by
`schemas.py`, `api.py` and `services.py` but missing from the source tree;
spec section 4.1 describes it as the profile-aware extraction of the flat
element list, with profile 1.0 a course-keyed mapping of element lists and
profile 2.0 a flat list of element-list blocks (spec section 6). -/
def extract_moodle_records : MoodleData → List SchemaElement
  | .profile1 moodlecourses => moodlecourses.flatMap (fun kv => kv.2)
  | .profile2 moodlecourses => moodlecourses.flatMap (fun es => es)

/-- The canonical URL of an entry:
`file_["fileurl"] if "fileurl" in file_ else file_["source"]`;
`none` embeds the `KeyError` raised when both are absent. -/
def canonicalUrl (f : SchemaElement) : Option String :=
  match f.fileurl with
  | some u => some u
  | none => f.source

/-- First occurrences of a list in order, embedding the key order of a
Python `Counter` built from the list. -/
def firstOccurrences (l : List String) : List String :=
  l.foldl (fun acc u => if u ∈ acc then acc else acc ++ [u]) []

/-- The duplicated URLs in counter order:
`[url for url, count in urls_counter.items() if count > 1]`. -/
def duplicated_urls (urls : List String) : List String :=
  (firstOccurrences urls).filter (fun u => 1 < urls.count u)

/-- Result of a whole-document validator: success, a `ValidationError`
carrying the offending values, or an uncaught `KeyError`. -/
inductive ValidationResult where
  | ok
  | validationError (values : List String)
  | keyError
deriving DecidableEq, Repr

/-- Embedding of `MoodleSchema.validate_urls_unique`. -/
def validate_urls_unique (data : MoodleData) : ValidationResult :=
  match (extract_moodle_records data).mapM canonicalUrl with
  | none => .keyError
  | some urls =>
    let dups := duplicated_urls urls
    if dups.isEmpty then .ok else .validationError dups

/-! ## Course-id consistency check
(`schemas.py`, `MoodleSchema.validate_course_jsons_unique_per_courseid`)

The source groups course jsons by courseid with the guard
`if course_id not in jsons_by_courseid[course_id]`, a membership test of the
courseid string against a list of course dicts.  Python `in` uses equality,
and a string never equals a dict, so the guard is always true and every
occurrence is appended.  The dynamic typing of that comparison is embedded
by the sum type `PyObj`.  Note also that in the source the
`@validates_schema` decorator of this method is commented out.
-/

/-- A Python value occurring in the grouped lists: either the courseid
string being (mis)tested for membership, or an appended course dict. -/
inductive PyObj where
  | str (s : String)
  | course (c : CourseJson)
deriving DecidableEq, Repr

/-- A file entry as read by the course-id consistency check
(`file_["courses"]`). -/
structure FileWithCourses where
  courses : List CourseJson
deriving DecidableEq, Repr

/-- The profile-1.0 shape read by the check:
`data["moodlecourses"].values()`, then `moodlecourse["files"]`. -/
abbrev CoursesData : Type := List (String × List FileWithCourses)

/-- Update-or-append on the grouped dict. -/
def updateGrouped (m : List (String × List PyObj)) (k : String)
    (v : List PyObj) : List (String × List PyObj) :=
  if (List.lookup k m).isSome then
    m.map (fun kv => if kv.1 = k then (k, v) else kv)
  else m ++ [(k, v)]

/-- One course occurrence: the buggy guard from the source,
`if course_id not in jsons_by_courseid[course_id]: append(course)`, testing
the courseid string against the list of course dicts. -/
def add_course_json (m : List (String × List PyObj)) (c : CourseJson) :
    List (String × List PyObj) :=
  let cur := (List.lookup c.courseid m).getD []
  if PyObj.str c.courseid ∈ cur then m
  else updateGrouped m c.courseid (cur ++ [PyObj.course c])

/-- Grouping loop of the check. -/
def jsons_by_courseid (data : CoursesData) : List (String × List PyObj) :=
  data.foldl
    (fun m kv => kv.2.foldl (fun m2 f => f.courses.foldl add_course_json m2) m)
    []

/-- Embedding of `validate_course_jsons_unique_per_courseid`: course ids
grouping to more than one entry are ambiguous, the pseudo-course id "0" is
exempt, and a non-empty ambiguous set raises a `ValidationError`. -/
def validate_course_jsons_unique_per_courseid (data : CoursesData) :
    ValidationResult :=
  let ambiguous :=
    (((jsons_by_courseid data).filter (fun kv => 1 < kv.2.length)).map
      Prod.fst).filter (fun id => id ≠ "0")
  if ambiguous.isEmpty then .ok else .validationError ambiguous

end InvenioMoodle

namespace InvenioMoodle

/-! # Theorems -/

/-! ## C2: classification ordering -/

theorem count_visit_classification (ids : List String) (i : String) :
    (visit_classification ids).count ⟨i, none⟩ = ids.count i ∧
    (visit_classification ids).count ⟨i, some "en"⟩ = ids.count i := by
  have hperm : List.Perm (sortOefosIds ids) ids := List.perm_insertionSort oefosLe ids
  unfold visit_classification
  constructor <;>
  · rw [show ids.count i = (sortOefosIds ids).count i from (hperm.count_eq i).symm]
    induction sortOefosIds ids with
    | nil => rfl
    | cons x xs ih =>
      by_cases hx : x = i <;>
        simp [List.count_cons, hx, ih, List.count_append, OefosEntry.mk.injEq]

/-- C2: the classification conversion sorts the collected ids by the
right-pad-to-6 key and appends each id exactly twice (once untagged, once
tagged "en"); on the ids ["2345","234","123","1234","2"] the sorted order is
exactly ["1234","123","2345","234","2"]. -/
theorem classification_ordering_law :
    sortOefosIds ["2345", "234", "123", "1234", "2"]
      = ["1234", "123", "2345", "234", "2"] ∧
    (∀ ids : List String, ∀ i : String,
      (visit_classification ids).count ⟨i, none⟩ = ids.count i ∧
      (visit_classification ids).count ⟨i, some "en"⟩ = ids.count i) ∧
    (∀ ids : List String,
      visit_classification ids
        = (sortOefosIds ids).flatMap (fun i => [⟨i, none⟩, ⟨i, some "en"⟩])) := by
  refine ⟨by decide, fun ids i => count_visit_classification ids i, fun ids => rfl⟩

/-! ## C8: resource-type mapping -/

/-- C8 counterexample: the claim states that a resourcetype value absent
from the lookup table contributes nothing and raises no error; however the
code raises a `KeyError` on the value "Video", which is in neither version
of the table. -/
theorem resourcetype_unmapped_raises :
    visit_resourcetype "Video" [] = .error "KeyError: Video" := rfl

/-- C8 (amended): mapped values append their fixed translation; the value
"No selection" (mapped to `None`) contributes nothing and raises no error;
a value not present in the table raises a `KeyError` instead of being
silently dropped. -/
theorem resourcetype_table_behavior (record : List String) :
    visit_resourcetype "No selection" record = .ok record ∧
    visit_resourcetype "Presentationslide" record = .ok (record ++ ["slide"]) ∧
    visit_resourcetype "Exercise" record = .ok (record ++ ["assessment"]) ∧
    (∀ v : String,
      learningresourcetype_by_resourcetype.lookup v = none →
      visit_resourcetype v record = .error ("KeyError: " ++ v)) := by
  refine ⟨rfl, rfl, rfl, fun v hv => ?_⟩
  unfold visit_resourcetype
  rw [hv]

/-- C8 witness: the amended theorem applied at a concrete record and the
concrete unmapped value "Video". -/
theorem resourcetype_table_behavior_witness :
    visit_resourcetype "Video" ["slide"] = .error "KeyError: Video" :=
  (resourcetype_table_behavior ["slide"]).2.2.2 "Video" (by decide)

/-! ## C9: UnitKey canonical identifier -/

/-- C9: for every `types.UnitKey` built from courseid, year and semester,
reading `get_moodle_pid_value` raises an `AttributeError` (the constructor
stores the attribute "courseid" while the method reads "course_id"), so it
never returns the composite value the spec and the repository's own test
`test_unitkey` require. -/
theorem unitkey_pid_value_attribute_error :
    (∀ c y s : String, get_moodle_pid_value (unitKeyInit c y s) = none) ∧
    get_moodle_pid_value (unitKeyInit "38dkede" "2023" "WS") = none ∧
    unitKeyPidValueSpec "38dkede" "2023" "WS" = "38dkede-2023-WS" := by
  refine ⟨fun c y s => rfl, rfl, rfl⟩

/-! ## C1: at-most-one-file invariant -/

theorem filesOf_attachFile (att : Attachments) (pid fname : String) :
    filesOf (attachFile att pid fname) pid = filesOf att pid ++ [fname] := by
  induction att with
  | nil => simp [attachFile, filesOf, List.lookup]
  | cons kv rest ih =>
    by_cases h : kv.1 = pid
    · simp [attachFile, h, filesOf, List.lookup]
    · have h2 : (pid == kv.1) = false := by
        simp [beq_iff_eq]; exact fun he => h he.symm
      simpa [attachFile, h, filesOf, List.lookup, h2] using ih

/-- C1 counterexample: the claim asserts that attempting to attach a second
file to a record that already has one attached raises a consistency error;
on a record with exactly one pre-existing file the code instead skips
attachment silently and succeeds, leaving the store unchanged. -/
theorem file_already_attached_skips_without_error :
    insert_files_into_db (fun _ => "f2.pdf")
      [(Key.file "u" "2023" "SS" "h", { pid := "p1" })]
      [("p1", ["f1.pdf"])] = .ok [("p1", ["f1.pdf"])] := rfl

/-- C1 (amended): for a file-type record with no attached file the cached
file is attached exactly once; with exactly one pre-existing file the
attachment is silently skipped (no error); with more than one pre-existing
file a consistency error is raised and nothing is attached. -/
theorem insert_files_at_most_one (cacheName : String → String)
    (url year semester hash : String) (task : TaskLog)
    (rest : List (Key × TaskLog)) (att : Attachments) :
    (filesOf att task.pid = [] →
      insert_files_into_db cacheName
          ((Key.file url year semester hash, task) :: rest) att
        = insert_files_into_db cacheName rest
            (attachFile att task.pid (cacheName url)) ∧
      filesOf (attachFile att task.pid (cacheName url)) task.pid
        = [cacheName url]) ∧
    (∀ f0 : String, filesOf att task.pid = [f0] →
      insert_files_into_db cacheName
          ((Key.file url year semester hash, task) :: rest) att
        = insert_files_into_db cacheName rest att) ∧
    (1 < (filesOf att task.pid).length →
      insert_files_into_db cacheName
          ((Key.file url year semester hash, task) :: rest) att
        = .error "encountered LOM-record of resource_type file with more than 1 file attached") := by
  refine ⟨fun h => ⟨?_, ?_⟩, fun f0 h => ?_, fun h => ?_⟩
  · simp [insert_files_into_db, h]
  · rw [filesOf_attachFile, h]; rfl
  · simp [insert_files_into_db, h]
  · have h2 : ¬(filesOf att task.pid).length = 1 := by omega
    simp [insert_files_into_db, h, h2]

/-- C1 witness: the amended theorem applied to a record with no attached
file, showing the single attachment. -/
theorem insert_files_at_most_one_witness :
    insert_files_into_db (fun _ => "f.pdf")
      [(Key.file "u" "2023" "SS" "h", { pid := "p2" })] []
      = insert_files_into_db (fun _ => "f.pdf") []
          (attachFile [] "p2" "f.pdf") ∧
    filesOf (attachFile [] "p2" "f.pdf") "p2" = ["f.pdf"] :=
  (insert_files_at_most_one (fun _ => "f.pdf") "u" "2023" "SS" "h"
    { pid := "p2" } [] []).1 rfl

/-! ## C7: course-id consistency check -/

/-- C7: the claim says the check raises only when a repeated courseid
carries non-identical course metadata; on a payload whose courseid "42"
occurs twice with byte-identical course jsons the embedded check
nevertheless raises, listing "42", because the source tests the courseid
string for membership in a list of course dicts (always false in Python),
so every occurrence is appended.  The check's own docstring says identical
appearances must pass, so this is a bug in the code (and its
`@validates_schema` decorator is commented out besides). -/
theorem course_jsons_identical_duplicates_flagged :
    validate_course_jsons_unique_per_courseid
      [("1", [⟨[⟨"42", "-1", []⟩]⟩, ⟨[⟨"42", "-1", []⟩]⟩])]
      = .validationError ["42"] := rfl

/-! ## C3: pseudo-course exclusion -/

theorem mem_keys_dictInsert {logs : Logs} {k k' : Key} {v : TaskLog}
    (h : k' ∈ (dictInsert logs k v).map Prod.fst) :
    k' ∈ logs.map Prod.fst ∨ k' = k := by
  unfold dictInsert at h
  split at h
  · simp only [List.map_map, List.mem_map, Function.comp] at h
    obtain ⟨kv, hkv, heq⟩ := h
    by_cases hk : kv.1 = k
    · right; rw [if_pos hk] at heq; exact heq.symm
    · left; rw [if_neg hk] at heq
      exact List.mem_map.mpr ⟨kv, hkv, heq⟩
  · simp only [List.map_append, List.mem_append, List.map_cons, List.map_nil,
      List.mem_singleton] at h
    exact h

theorem allKeysGood_dictInsert {logs : Logs} {k : Key} {v : TaskLog}
    (hl : allKeysGood logs) (hk : isPseudoKey k = false) :
    allKeysGood (dictInsert logs k v) := by
  intro k' hk'
  rcases mem_keys_dictInsert hk' with h | h
  · exact hl k' h
  · rw [h]; exact hk

theorem allKeysGood_insertUnitKey {fetch : Key → String} {f : MoodleElement}
    {logs : Logs} {c : CourseJson} (hl : allKeysGood logs)
    (hc : ¬c.courseid = "0") : allKeysGood (insertUnitKey fetch f logs c) := by
  unfold insertUnitKey
  split
  · exact hl
  · exact allKeysGood_dictInsert hl (by simp [isPseudoKey, hc])

theorem allKeysGood_insertCourseKey {fetch : Key → String} {f : MoodleElement}
    {logs : Logs} {c : CourseJson} (hl : allKeysGood logs)
    (hc : ¬c.courseid = "0") : allKeysGood (insertCourseKey fetch f logs c) := by
  unfold insertCourseKey
  split
  · exact hl
  · exact allKeysGood_dictInsert hl (by simp [isPseudoKey, hc])

theorem allKeysGood_prepare_course_step {fetch : Key → String}
    {f : MoodleElement} {logs : Logs} (c : CourseJson) (hl : allKeysGood logs) :
    allKeysGood (prepare_course_step fetch f logs c) := by
  unfold prepare_course_step
  split
  · exact hl
  · exact allKeysGood_insertCourseKey (allKeysGood_insertUnitKey hl (by assumption))
      (by assumption)

theorem allKeysGood_course_foldl {fetch : Key → String} {f : MoodleElement} :
    ∀ (cs : List CourseJson) (logs : Logs), allKeysGood logs →
    allKeysGood (cs.foldl (prepare_course_step fetch f) logs)
  | [], _, hl => hl
  | c :: cs, _, hl =>
    allKeysGood_course_foldl cs _ (allKeysGood_prepare_course_step c hl)

theorem allKeysGood_prepare_aux (fetch : Key → String) (cache : String → String) :
    ∀ (files : List MoodleElement) (logs : Logs), allKeysGood logs →
    allKeysGood (files.foldl
      (fun logs f =>
        f.courses.foldl (prepare_course_step fetch f)
          (dictInsert logs (.file f.fileurl f.year f.semester (cache f.fileurl))
            { pid := fetch (.file f.fileurl f.year f.semester (cache f.fileurl)),
              moodle_file_json := some f }))
      logs)
  | [], _, hl => hl
  | _ :: fs, _, hl =>
    allKeysGood_prepare_aux fetch cache fs _
      (allKeysGood_course_foldl _ _ (allKeysGood_dictInsert hl rfl))

/-- C3: a course entry with courseid "0" never produces a UnitKey, a
CourseKey or a relation link: the preparation step skips it entirely, all
keys registered by `prepare_tasks` name a courseid other than "0", and the
link-inference loop over a file's courses skips the entry producing no
link. -/
theorem pseudo_course_exclusion :
    (∀ (fetch : Key → String) (f : MoodleElement) (logs : Logs) (c : CourseJson),
      c.courseid = "0" → prepare_course_step fetch f logs c = logs) ∧
    (∀ (fetch : Key → String) (cache : String → String)
        (files : List MoodleElement) (k : Key),
      k ∈ (prepare_tasks fetch cache files).map Prod.fst →
      isPseudoKey k = false) ∧
    (∀ (logs : Logs) (key : Key) (log : TaskLog) (f : MoodleElement)
        (cs : List CourseJson) (links : List Link) (c : CourseJson),
      c.courseid = "0" →
      file_courses_links logs key log f (c :: cs) links
        = file_courses_links logs key log f cs links) := by
  refine ⟨fun fetch f logs c h => by simp [prepare_course_step, h],
    fun fetch cache files k hk => ?_,
    fun logs key log f cs links c h => by simp [file_courses_links, h]⟩
  exact allKeysGood_prepare_aux fetch cache files [] (fun k h => by simp at h) k hk

/-- C3 witness: the theorem applied to a concrete pseudo-course entry, a
concrete prepared table and a concrete link-inference step. -/
theorem pseudo_course_exclusion_witness :
    prepare_course_step (fun _ => "p") ⟨"u", "2023", "SS", []⟩ []
      ⟨"0", "-1", []⟩ = [] ∧
    isPseudoKey (Key.file "u" "2023" "SS" "h") = false ∧
    file_courses_links [] (Key.file "u" "2023" "SS" "h") { pid := "p" }
      ⟨"u", "2023", "SS", []⟩ [⟨"0", "-1", []⟩] []
      = file_courses_links [] (Key.file "u" "2023" "SS" "h") { pid := "p" }
          ⟨"u", "2023", "SS", []⟩ [] [] := by
  refine ⟨pseudo_course_exclusion.1 (fun _ => "p") _ _ _ rfl, ?_, ?_⟩
  · exact pseudo_course_exclusion.2.1 (fun _ => "p") (fun _ => "h")
      [⟨"u", "2023", "SS", [⟨"7", "-1", []⟩]⟩] _ (by decide)
  · exact pseudo_course_exclusion.2.2 _ _ _ _ _ _ _ rfl

/-! ## C4: root-course and missing-predecessor linking -/

theorem lookup_mapUpdate (k : Key) (v : TaskLog) :
    ∀ logs : Logs, containsKey logs k = true →
    List.lookup k (logs.map (fun kv => if kv.1 = k then (k, v) else kv)) = some v := by
  intro logs
  induction logs with
  | nil => intro h; simp [containsKey, lookupLog, List.lookup] at h
  | cons kv rest ih =>
    intro h
    by_cases hk : kv.1 = k
    · rw [List.map_cons, if_pos hk]
      simp [List.lookup]
    · have hke : (k == kv.1) = false := by
        simp [beq_iff_eq]; exact fun he => hk he.symm
      have h2 : containsKey rest k = true := by
        simpa [containsKey, lookupLog, List.lookup, hke] using h
      rw [List.map_cons, if_neg hk]
      simpa [List.lookup, hke] using ih h2

theorem lookup_append_self (k : Key) (v : TaskLog) :
    ∀ logs : Logs, ¬containsKey logs k = true →
    List.lookup k (logs ++ [(k, v)]) = some v := by
  intro logs
  induction logs with
  | nil => intro _; simp [List.lookup]
  | cons kv rest ih =>
    intro h
    have hke : (k == kv.1) = false := by
      cases hb : (k == kv.1) with
      | true =>
        exact absurd (by simp [containsKey, lookupLog, List.lookup, hb]) h
      | false => rfl
    have h2 : ¬containsKey rest k = true := by
      simpa [containsKey, lookupLog, List.lookup, hke] using h
    simpa [List.lookup, hke] using ih h2

theorem lookupLog_dictInsert_self (logs : Logs) (k : Key) (v : TaskLog) :
    lookupLog (dictInsert logs k v) k = some v := by
  unfold dictInsert lookupLog
  split
  · exact lookup_mapUpdate k v logs (by assumption)
  · exact lookup_append_self k v logs (by assumption)

theorem mem_setAdd_self (links : List Link) (l : Link) : l ∈ setAdd links l := by
  unfold setAdd
  split
  · assumption
  · simp

theorem mem_setAdd_of_mem {links : List Link} {x : Link} (l : Link)
    (h : x ∈ links) : x ∈ setAdd links l := by
  unfold setAdd
  split
  · exact h
  · simp [h]

/-- C4: for a course task, no continuation link is produced when the
declared sourceid is "-1"; a sourceid with no persistent-identifier entry
is silently skipped (the function returns successfully with the links and
table unchanged); otherwise both the `iscontinuedby` link (predecessor to
this course) and the `continues` link (this course to predecessor) are
added, preserving all previously collected links. -/
theorem root_course_linking (pidstore : String → Option TaskLog)
    (links : List Link) (logs : Logs) (key : Key) (log : TaskLog)
    (cj : CourseJson) (hcj : log.moodle_course_json = some cj) :
    (cj.sourceid = "-1" →
      add_course_key_links pidstore links logs key log = .ok (links, logs)) ∧
    (cj.sourceid ≠ "-1" →
      pidstore (Key.course cj.sourceid).to_string_key = none →
      add_course_key_links pidstore links logs key log = .ok (links, logs)) ∧
    (∀ sourceLog : TaskLog, cj.sourceid ≠ "-1" →
      pidstore (Key.course cj.sourceid).to_string_key = some sourceLog →
      ∃ (links1 : List Link) (logs1 : Logs) (tpid : String),
        add_course_key_links pidstore links logs key log = .ok (links1, logs1) ∧
        (⟨Key.course cj.sourceid, "iscontinuedby", log.pid⟩ : Link) ∈ links1 ∧
        (⟨key, "continues", tpid⟩ : Link) ∈ links1 ∧
        ∀ x ∈ links, x ∈ links1) := by
  refine ⟨fun h => by simp [add_course_key_links, hcj, h],
    fun h1 h2 => by simp [add_course_key_links, hcj, h1, h2],
    fun sourceLog h1 h2 => ?_⟩
  by_cases hc : containsKey logs (Key.course cj.sourceid)
  · obtain ⟨t, ht⟩ : ∃ t, lookupLog logs (Key.course cj.sourceid) = some t := by
      have := hc
      unfold containsKey at this
      exact Option.isSome_iff_exists.mp this
    refine ⟨setAdd (setAdd links
        ⟨Key.course cj.sourceid, "iscontinuedby", log.pid⟩)
        ⟨key, "continues", t.pid⟩, logs, t.pid, ?_, ?_, ?_, ?_⟩
    · simp [add_course_key_links, hcj, h1, h2, hc, ht]
    · exact mem_setAdd_of_mem _ (mem_setAdd_self _ _)
    · exact mem_setAdd_self _ _
    · intro x hx
      exact mem_setAdd_of_mem _ (mem_setAdd_of_mem _ hx)
  · refine ⟨setAdd (setAdd links
        ⟨Key.course cj.sourceid, "iscontinuedby", log.pid⟩)
        ⟨key, "continues", sourceLog.pid⟩,
      dictInsert logs (Key.course cj.sourceid) sourceLog, sourceLog.pid,
      ?_, ?_, ?_, ?_⟩
    · simp [add_course_key_links, hcj, h1, h2, hc, lookupLog_dictInsert_self]
    · exact mem_setAdd_of_mem _ (mem_setAdd_self _ _)
    · exact mem_setAdd_self _ _
    · intro x hx
      exact mem_setAdd_of_mem _ (mem_setAdd_of_mem _ hx)

/-- C4 witness: the theorem applied to a concrete root course
(sourceid "-1") and to a concrete course whose predecessor has no
persistent-identifier entry. -/
theorem root_course_linking_witness :
    add_course_key_links (fun _ => none) [] [] (Key.course "7")
      { pid := "p", moodle_course_json := some ⟨"7", "-1", []⟩ }
      = .ok ([], []) ∧
    add_course_key_links (fun _ => none) [] [] (Key.course "7")
      { pid := "p", moodle_course_json := some ⟨"7", "5", []⟩ }
      = .ok ([], []) := by
  constructor
  · exact (root_course_linking (fun _ => none) [] [] (Key.course "7")
      { pid := "p", moodle_course_json := some ⟨"7", "-1", []⟩ }
      ⟨"7", "-1", []⟩ rfl).1 rfl
  · exact (root_course_linking (fun _ => none) [] [] (Key.course "7")
      { pid := "p", moodle_course_json := some ⟨"7", "5", []⟩ }
      ⟨"7", "5", []⟩ rfl).2.1 (by decide) rfl

/-! ## C5: publish-phase atomicity -/

theorem publish_batch_error (d p : String → Bool) :
    ∀ pids : List String, (∃ pid ∈ pids, d pid = true ∧ p pid = false) →
    ∃ e, publish_batch d p pids = .error e := by
  intro pids
  induction pids with
  | nil => rintro ⟨pid, h, _⟩; exact absurd h (List.not_mem_nil pid)
  | cons q rest ih =>
    rintro ⟨pid, hmem, hd, hp⟩
    rcases List.mem_cons.mp hmem with heq | hrest
    · subst heq
      exact ⟨pid, by simp [publish_batch, hd, hp]⟩
    · by_cases hdq : d q = true
      · by_cases hpq : p q = true
        · obtain ⟨e, he⟩ := ih ⟨pid, hrest, hd, hp⟩
          exact ⟨e, by simp [publish_batch, hdq, hpq, he]⟩
        · exact ⟨q, by simp [publish_batch, hdq, hpq]⟩
      · obtain ⟨e, he⟩ := ih ⟨pid, hrest, hd, hp⟩
        exact ⟨e, by simp [publish_batch, hdq, he]⟩

theorem publish_batch_ok (d p : String → Bool) :
    ∀ pids : List String, (∀ pid ∈ pids, d pid = true → p pid = true) →
    publish_batch d p pids = .ok (pids.filter (fun x => d x)) := by
  intro pids
  induction pids with
  | nil => intro _; rfl
  | cons q rest ih =>
    intro h
    have hrest := ih (fun pid hm hd => h pid (List.mem_cons_of_mem q hm) hd)
    by_cases hdq : d q = true
    · have hpq := h q (List.mem_cons_self q rest) hdq
      simp [publish_batch, hdq, hpq, hrest, List.filter_cons]
    · simp [publish_batch, hdq, hrest, List.filter_cons]

/-- C5: the publish phase is all-or-nothing.  Every pid whose draft is
pending is published inside the single unit of work; if any single publish
fails the unit of work rolls the whole batch back, so the published state
equals the pre-run state; if none fails, exactly the drafted pids are
published on commit. -/
theorem publish_atomicity (d p : String → Bool) (pids : List String)
    (published : List String) :
    ((∃ pid ∈ pids, d pid = true ∧ p pid = false) →
      publish_phase d p pids published = published) ∧
    ((∀ pid ∈ pids, d pid = true → p pid = true) →
      publish_phase d p pids published
        = published ++ pids.filter (fun x => d x)) := by
  constructor
  · intro hex
    obtain ⟨e, he⟩ := publish_batch_error d p pids hex
    unfold publish_phase
    rw [he]
  · intro hall
    unfold publish_phase
    rw [publish_batch_ok d p pids hall]

/-- C5 witness: the theorem applied to a concrete batch in which the
publish of "b" fails, showing the pre-run state is preserved, and to a
concrete batch with no failure, showing both drafted pids published. -/
theorem publish_atomicity_witness :
    publish_phase (fun _ => true) (fun s => s == "a") ["a", "b"] ["old"]
      = ["old"] ∧
    publish_phase (fun _ => true) (fun _ => true) ["a", "b"] ["old"]
      = ["old", "a", "b"] := by
  constructor
  · exact (publish_atomicity (fun _ => true) (fun s => s == "a")
      ["a", "b"] ["old"]).1 ⟨"b", by decide, rfl, rfl⟩
  · exact (publish_atomicity (fun _ => true) (fun _ => true)
      ["a", "b"] ["old"]).2 (fun pid _ _ => rfl)

/-! ## C6: duplicate file-URL validation -/

theorem mem_foldl_firstOccurrences (u : String) :
    ∀ (l acc : List String),
    (u ∈ l.foldl (fun acc x => if x ∈ acc then acc else acc ++ [x]) acc
      ↔ u ∈ acc ∨ u ∈ l) := by
  intro l
  induction l with
  | nil => intro acc; simp
  | cons x xs ih =>
    intro acc
    rw [List.foldl_cons]
    by_cases hx : x ∈ acc
    · rw [if_pos hx, ih]
      constructor
      · rintro (h | h)
        · exact Or.inl h
        · exact Or.inr (List.mem_cons_of_mem x h)
      · rintro (h | h)
        · exact Or.inl h
        · rcases List.mem_cons.mp h with heq | hxs
          · exact Or.inl (heq ▸ hx)
          · exact Or.inr hxs
    · rw [if_neg hx, ih]
      simp only [List.mem_append, List.mem_singleton, List.mem_cons]
      tauto

theorem mem_firstOccurrences (u : String) (l : List String) :
    u ∈ firstOccurrences l ↔ u ∈ l := by
  unfold firstOccurrences
  rw [mem_foldl_firstOccurrences]
  simp

theorem mem_duplicated_urls (urls : List String) (u : String) :
    u ∈ duplicated_urls urls ↔ 1 < urls.count u := by
  unfold duplicated_urls
  rw [List.mem_filter]
  constructor
  · rintro ⟨_, h⟩
    exact of_decide_eq_true h
  · intro h
    refine ⟨(mem_firstOccurrences u urls).mpr ?_, decide_eq_true h⟩
    have : 0 < urls.count u := Nat.lt_trans Nat.zero_lt_one h
    exact List.count_pos_iff.mp this

/-- C6: schema validation fails on any payload in which the same canonical
file URL (`fileurl` when present, else `source`) occurs in more than one
extracted entry, raising a `ValidationError` listing exactly the duplicated
URLs; a payload whose canonical URLs are all distinct passes the check. -/
theorem duplicate_url_validation (data : MoodleData) (urls : List String)
    (hurls : (extract_moodle_records data).mapM canonicalUrl = some urls) :
    ((∃ u, 1 < urls.count u) →
      validate_urls_unique data = .validationError (duplicated_urls urls) ∧
      ∀ u, 1 < urls.count u ↔ u ∈ duplicated_urls urls) ∧
    (urls.Nodup → validate_urls_unique data = .ok) := by
  constructor
  · rintro ⟨u, hu⟩
    have hmem : u ∈ duplicated_urls urls := (mem_duplicated_urls urls u).mpr hu
    have hne : duplicated_urls urls ≠ [] := List.ne_nil_of_mem hmem
    have hempty : (duplicated_urls urls).isEmpty = false := by
      cases hd : duplicated_urls urls with
      | nil => exact absurd hd hne
      | cons a as => rfl
    refine ⟨?_, fun w => (mem_duplicated_urls urls w).symm⟩
    unfold validate_urls_unique
    rw [hurls]
    simp [hempty]
  · intro hnd
    have hcount : ∀ w ∈ firstOccurrences urls, ¬(1 < urls.count w) := by
      intro w _
      have := List.nodup_iff_count_le_one.mp hnd w
      omega
    have hdups : duplicated_urls urls = [] := by
      unfold duplicated_urls
      rw [List.filter_eq_nil_iff]
      intro w hw
      simpa using hcount w hw
    unfold validate_urls_unique
    rw [hurls]
    simp [hdups]

/-- C6 witness: the theorem applied to a concrete profile-1.0 payload with
a duplicated URL "u" and to a concrete payload with distinct URLs. -/
theorem duplicate_url_validation_witness :
    validate_urls_unique
        (.profile1 [("1", [⟨some "u", none⟩, ⟨some "u", none⟩])])
      = .validationError (duplicated_urls ["u", "u"]) ∧
    validate_urls_unique
        (.profile1 [("1", [⟨some "u", none⟩, ⟨none, some "w"⟩])])
      = .ok := by
  constructor
  · exact ((duplicate_url_validation
      (.profile1 [("1", [⟨some "u", none⟩, ⟨some "u", none⟩])])
      ["u", "u"] rfl).1 ⟨"u", by decide⟩).1
  · exact (duplicate_url_validation
      (.profile1 [("1", [⟨some "u", none⟩, ⟨none, some "w"⟩])])
      ["u", "w"] rfl).2 (by decide)

/-! ## C10: the inferred links form a set -/

theorem setAdd_nodup {links : List Link} (l : Link) (hnd : links.Nodup) :
    (setAdd links l).Nodup := by
  unfold setAdd
  split
  · exact hnd
  · rename_i hmem
    simp [List.nodup_append, hnd, hmem]

theorem file_courses_links_nodup {logs : Logs} {key : Key} {log : TaskLog}
    {f : MoodleElement} :
    ∀ (cs : List CourseJson) (links links1 : List Link),
    file_courses_links logs key log f cs links = .ok links1 →
    links.Nodup → links1.Nodup := by
  intro cs
  induction cs with
  | nil =>
    intro links links1 h hnd
    simp [file_courses_links] at h
    exact h ▸ hnd
  | cons c rest ih =>
    intro links links1 h hnd
    by_cases h0 : c.courseid = "0"
    · rw [show file_courses_links logs key log f (c :: rest) links
          = file_courses_links logs key log f rest links by
        simp [file_courses_links, h0]] at h
      exact ih links links1 h hnd
    · simp only [file_courses_links, if_neg h0] at h
      split at h
      · simp at h
      · exact ih _ links1 h (setAdd_nodup _ (setAdd_nodup _ hnd))

theorem add_file_key_links_nodup {logs : Logs} {key : Key} {log : TaskLog}
    {links links1 : List Link}
    (h : add_file_key_links logs key log links = .ok links1)
    (hnd : links.Nodup) : links1.Nodup := by
  unfold add_file_key_links at h
  split at h
  · simp at h
  · exact file_courses_links_nodup _ links links1 h hnd

theorem add_unit_key_links_nodup {logs : Logs} {key : Key} {courseid : String}
    {log : TaskLog} {links links1 : List Link}
    (h : add_unit_key_links logs key courseid log links = .ok links1)
    (hnd : links.Nodup) : links1.Nodup := by
  unfold add_unit_key_links at h
  split at h
  · simp at h
  · simp at h
    exact h ▸ setAdd_nodup _ (setAdd_nodup _ hnd)

theorem add_course_key_links_nodup {ps : String → Option TaskLog}
    {links : List Link} {logs : Logs} {key : Key} {log : TaskLog}
    {links1 : List Link} {logs1 : Logs}
    (h : add_course_key_links ps links logs key log = .ok (links1, logs1))
    (hnd : links.Nodup) : links1.Nodup := by
  unfold add_course_key_links at h
  split at h
  · simp at h
  · split at h
    · simp at h
      exact h.1 ▸ hnd
    · split at h
      · simp at h
        exact h.1 ▸ hnd
      · split at h
        · simp at h
        · simp at h
          exact h.1 ▸ setAdd_nodup _ (setAdd_nodup _ hnd)

theorem get_links_aux_nodup (ps : String → Option TaskLog) :
    ∀ (items : List (Key × TaskLog)) (links : List Link) (logs : Logs)
      (links1 : List Link) (logs1 : Logs),
    get_links_aux ps items links logs = .ok (links1, logs1) →
    links.Nodup → links1.Nodup := by
  intro items
  induction items with
  | nil =>
    intro links logs links1 logs1 h hnd
    simp [get_links_aux] at h
    exact h.1 ▸ hnd
  | cons kv rest ih =>
    intro links logs links1 logs1 h hnd
    obtain ⟨key, log⟩ := kv
    cases key with
    | file u y s hs =>
      simp only [get_links_aux] at h
      split at h
      · simp at h
      · rename_i links2 hres
        exact ih links2 logs links1 logs1 h (add_file_key_links_nodup hres hnd)
    | unit courseid y s =>
      simp only [get_links_aux] at h
      split at h
      · simp at h
      · rename_i links2 hres
        exact ih links2 logs links1 logs1 h (add_unit_key_links_nodup hres hnd)
    | course courseid =>
      simp only [get_links_aux] at h
      split at h
      · simp at h
      · rename_i links2 logs2 hres
        exact ih links2 logs2 links1 logs1 h (add_course_key_links_nodup hres hnd)

theorem lookupLog_append_relation (l : Link) (k : Key) :
    ∀ logs : Logs,
    lookupLog (append_relation logs l) k
      = (lookupLog logs k).map
          (fun t => if k = l.key
            then { t with relations := t.relations ++ [(l.value, l.kind)] }
            else t) := by
  intro logs
  induction logs with
  | nil => rfl
  | cons kv rest ih =>
    unfold append_relation at ih ⊢
    rw [List.map_cons]
    by_cases hk : k = kv.1
    · by_cases hl : kv.1 = l.key
      · rw [if_pos hl]
        have hkl : k = l.key := hk.trans hl
        simp [lookupLog, List.lookup, hk, hkl, hl]
      · rw [if_neg hl]
        have hkl : ¬k = l.key := fun he => hl (hk.symm.trans he)
        simp [lookupLog, List.lookup, hk, hkl, hl]
    · have hke : (k == kv.1) = false := by
        simp [beq_iff_eq]; exact hk
      by_cases hl : kv.1 = l.key
      · rw [if_pos hl]
        simpa [lookupLog, List.lookup, hke] using ih
      · rw [if_neg hl]
        simpa [lookupLog, List.lookup, hke] using ih

theorem lookupLog_apply_links (k : Key) :
    ∀ (links : List Link) (logs : Logs) (t : TaskLog),
    lookupLog logs k = some t →
    lookupLog (apply_links links logs) k
      = some { t with relations := t.relations ++ addedRelations links k } := by
  intro links
  induction links with
  | nil =>
    intro logs t ht
    simpa [apply_links, addedRelations] using ht
  | cons l ls ih =>
    intro logs t ht
    have h1 : lookupLog (append_relation logs l) k
        = some (if k = l.key
            then { t with relations := t.relations ++ [(l.value, l.kind)] }
            else t) := by
      rw [lookupLog_append_relation, ht]
      rfl
    have h2 := ih (append_relation logs l) _ h1
    rw [show apply_links (l :: ls) logs = apply_links ls (append_relation logs l)
      from rfl]
    rw [h2]
    by_cases hkl : k = l.key
    · simp [addedRelations, List.filterMap_cons, hkl.symm, if_pos hkl]
    · have hlk : ¬l.key = k := fun he => hkl he.symm
      simp [addedRelations, List.filterMap_cons, hlk, if_neg hkl]

theorem addedRelations_nodup {links : List Link} (k : Key)
    (hnd : links.Nodup) : (addedRelations links k).Nodup := by
  unfold addedRelations
  refine List.Nodup.filterMap ?_ hnd
  intro a a' b hb hb'
  by_cases ha : a.key = k
  · by_cases ha' : a'.key = k
    · rw [if_pos ha] at hb
      rw [if_pos ha'] at hb'
      simp at hb hb'
      cases a; cases a'
      simp at ha ha' hb hb' ⊢
      rw [← hb'] at hb
      injection hb with h1 h2
      exact ⟨ha.trans ha'.symm, h2, h1⟩
    · rw [if_neg ha'] at hb'
      simp at hb'
  · rw [if_neg ha] at hb
    simp at hb

/-- C10: within one run, link inference returns a mathematical set of
links: the collected list is duplicate-free, so each (source key, kind,
target pid) triple occurs at most once, and the relation-append loop
therefore appends each relation entry onto its source record's metadata at
most once (the appended entries per record are exactly the duplicate-free
`addedRelations`). -/
theorem link_set_unique (pidstore : String → Option TaskLog) (logs : Logs)
    (links2 : List Link) (logs2 : Logs)
    (h : get_links pidstore logs = .ok (links2, logs2)) :
    links2.Nodup ∧
    (∀ l : Link, links2.count l ≤ 1) ∧
    (∀ k : Key, (addedRelations links2 k).Nodup) ∧
    (∀ (k : Key) (t : TaskLog), lookupLog logs2 k = some t →
      lookupLog (apply_links links2 logs2) k
        = some { t with relations := t.relations ++ addedRelations links2 k }) := by
  have hnd : links2.Nodup :=
    get_links_aux_nodup pidstore logs [] logs links2 logs2 h List.nodup_nil
  exact ⟨hnd, fun l => List.nodup_iff_count_le_one.mp hnd l,
    fun k => addedRelations_nodup k hnd,
    fun k t ht => lookupLog_apply_links k links2 logs2 t ht⟩

/-- C10 witness: the theorem applied to a concrete run containing one file
task with no course entries, whose inferred link set is empty. -/
theorem link_set_unique_witness :
    ([] : List Link).Nodup ∧ ∀ l : Link, List.count l ([] : List Link) ≤ 1 :=
  have h := link_set_unique (fun _ => none)
    [(Key.file "u" "2023" "SS" "h",
      { pid := "p", moodle_file_json := some ⟨"u", "2023", "SS", []⟩ })]
    []
    [(Key.file "u" "2023" "SS" "h",
      { pid := "p", moodle_file_json := some ⟨"u", "2023", "SS", []⟩ })]
    rfl
  ⟨h.1, h.2.1⟩

end InvenioMoodle
